import Mathlib

/-!
Verification of the MGSousa/mysqldump library (Go) against its specification.

The development shallowly embeds the two cores of the library:
  * the restore-side statement stream reader (`Source` in source.go, with
    `mergeInsert` and `trim`), and
  * the dump-side value formatter and row batch emitter (`buildRowData`,
    `writeTableData`, `sanitize`, `getTrigger` in mysqldump.go / util.go).

Strings are modelled as `List Char` (Go strings are byte strings; all data in
the claims is ASCII so `Char` is an adequate byte model).  Each helper mirrors
the semantics of the Go standard-library function it is named after.
-/

namespace Mysqldump

abbrev Chars := List Char

/-- Go `strings.HasPrefix pat` on `s` (first argument is the prefix). -/
def goStarts : Chars → Chars → Bool
  | [], _ => true
  | _ :: _, [] => false
  | p :: ps, c :: cs => p == c && goStarts ps cs

/-- Go `strings.HasSuffix`. -/
def goEnds (pat s : Chars) : Bool :=
  goStarts pat.reverse s.reverse

/-- Go `strings.Index` (position of the first occurrence of `pat`, if any). -/
def goIdx (pat : Chars) : Chars → Option Nat
  | [] => if goStarts pat [] then some 0 else none
  | c :: cs =>
    if goStarts pat (c :: cs) then some 0
    else (goIdx pat cs).map (· + 1)

/-- Go `strings.TrimPrefix`. -/
def goTrimPrefL (pat s : Chars) : Chars :=
  if goStarts pat s then s.drop pat.length else s

/-- Go `strings.TrimSuffix`. -/
def goTrimSuffixL (pat s : Chars) : Chars :=
  if goEnds pat s then s.take (s.length - pat.length) else s

/-- Go `unicode.IsSpace` restricted to the ASCII space characters. -/
def goIsSpace (c : Char) : Bool :=
  c == ' ' || c == '\t' || c == '\n' || c == '\x0b' || c == '\x0c' || c == '\r'

/-- Go `strings.TrimSpace`. -/
def goTrimSpace (s : Chars) : Chars :=
  ((s.dropWhile goIsSpace).reverse.dropWhile goIsSpace).reverse

/-- `trim` from util.go: `strings.TrimSpace(strings.TrimLeft(s, "\n"))`. -/
def trimGo (s : Chars) : Chars :=
  goTrimSpace (s.dropWhile (· == '\n'))

/-- Go `strings.Join`. -/
def goJoin (sep : Chars) : List Chars → Chars
  | [] => []
  | [x] => x
  | x :: y :: xs => x ++ sep ++ goJoin sep (y :: xs)

/-- Auxiliary scanner for `goReplace`: `skip` counts characters of a matched
pattern occurrence that remain to be consumed without re-matching. -/
def goReplaceAux (pat repl : Chars) : Chars → Nat → Chars
  | [], _ => []
  | _ :: cs, skip + 1 => goReplaceAux pat repl cs skip
  | c :: cs, 0 =>
    if pat ≠ [] ∧ goStarts pat (c :: cs) = true then
      repl ++ goReplaceAux pat repl cs (pat.length - 1)
    else
      c :: goReplaceAux pat repl cs 0

/-- Go `strings.Replace(s, pat, repl, -1)` for a non-empty pattern:
replace every (non-overlapping, leftmost) occurrence. -/
def goReplace (pat repl s : Chars) : Chars :=
  goReplaceAux pat repl s 0

/-! ### The statement stream reader (source.go) -/

/-- `bufio.Reader.ReadString(';')`: the bytes up to and including the first
`';'` together with the remaining bytes; `none` models the `io.EOF` return
(in which case `Source` discards the partial read and leaves the loop). -/
def readStringSemi : Chars → Option (Chars × Chars)
  | [] => none
  | c :: cs =>
    if c = ';' then some ([';'], cs)
    else
      match readStringSemi cs with
      | none => none
      | some (l, r) => some (c :: l, r)

def insertIntoPat : Chars := ("INSERT INTO").toList

/-- The value-list splice of `mergeInsert` over the statements after the
first one: for each, locate `VALUES`, keep what follows, strip the leading
`VALUES` keyword and the trailing `';'`.  `i` is the loop index and `total`
the length of the whole `insertSQLs` slice (the Go code guards the comma
with `i < len(insertSQLs)-1`). -/
def mergeRest (total : Nat) : Nat → List Chars → Option Chars
  | _, [] => some []
  | i, s :: ss =>
    match goIdx ("VALUES").toList s with
    | none => none
    | some k =>
      let part := goTrimSuffixL ([';']) (goTrimPrefL (("VALUES").toList) (s.drop k))
      (mergeRest total (i + 1) ss).map
        (fun r => (if i < total - 1 then [','] else []) ++ part ++ r)

/-- `mergeInsert` from source.go, as the pair (result, error message). -/
def mergeInsertGo : List Chars → (Chars × Option Chars)
  | [] => ([], some ("no input provided").toList)
  | x :: xs =>
    match mergeRest (xs.length + 1) 0 xs with
    | none => ([], some ("invalid SQL: missing VALUES keyword").toList)
    | some r => (goTrimSuffixL ([';']) x ++ r ++ [';'], none)

/-- The inner accumulation loop of `Source`: up to `k` further statements are
read; a statement that `trim`s to an `INSERT INTO` prefix is appended to the
batch, the first non-matching statement is consumed and dropped, and EOF
stops the loop.  Returns the batch and the unread remainder. -/
def accumulate : Nat → Chars → List Chars → (List Chars × Chars)
  | 0, rest, acc => (acc, rest)
  | k + 1, rest, acc =>
    match readStringSemi rest with
    | none => (acc, rest)
    | some (line, rest') =>
      let s2 := trimGo line
      if goStarts insertIntoPat s2 = true then
        accumulate k rest' (acc ++ [s2])
      else
        (acc, rest')

/-- The main loop of `Source`, fuelled: each iteration consumes at least one
byte, so any fuel above the input length is sufficient.  Returns the list of
statements dispatched to the executor and the error, if any (the only error
the modelled loop can produce comes from `mergeInsert`; executor errors are
out of scope — the executor is modelled in its always-succeeding dry-run
mode). -/
def sourceLoopF (m : Int) : Nat → Chars → (List Chars × Option Chars)
  | 0, _ => ([], none)
  | f + 1, input =>
    match readStringSemi input with
    | none => ([], none)
    | some (line, rest) =>
      let s := trimGo line
      if 1 < m ∧ goStarts insertIntoPat s = true then
        let p := accumulate (m - 1).toNat rest [s]
        match mergeInsertGo p.1 with
        | (_, some e) => ([], some e)
        | (merged, none) =>
          let q := sourceLoopF m f p.2
          (merged :: q.1, q.2)
      else
        let q := sourceLoopF m f rest
        (s :: q.1, q.2)

/-- The statement-dispatch behaviour of `Source`: the statements executed by
the read loop, in order, with the possible `mergeInsert` error. -/
def sourceLoop (m : Int) (input : Chars) : (List Chars × Option Chars) :=
  sourceLoopF m (input.length + 1) input

/-- The tail of `Source` after the read loop: on success a `COMMIT;` and a
`SET autocommit=1;` are executed and the call returns `nil`. -/
def sourceRun (m : Int) (input : Chars) : (List Chars × Option Chars) :=
  match sourceLoop m input with
  | (l, some e) => (l, some e)
  | (l, none) => (l ++ [("COMMIT;").toList, ("SET autocommit=1;").toList], none)

/-! ### The value formatter (buildRowData, sanitize) -/

/-- A wall-clock value as the formatter uses it (`time.Time` restricted to
the fields read by the `2006-01-02` and `2006-01-02 15:04:05` layouts). -/
structure GoTime where
  year : Nat
  month : Nat
  day : Nat
  hour : Nat
  minute : Nat
  second : Nat
deriving DecidableEq

/-- The dynamic values the `database/sql` driver can hand to `buildRowData`
(the `interface{}` column values): byte slices, integers, floats, wall-clock
times, strings and booleans.  Bytes are modelled as `Chars`. -/
inductive GoVal where
  | bytes (b : Chars)
  | int (n : Int)
  | flt (b : Chars)
  | time (t : GoTime)
  | str (s : Chars)
  | bool (b : Bool)
deriving DecidableEq

def digitChar (d : Nat) : Char := Char.ofNat (48 + d)

def natCharsAux : Nat → Nat → Chars
  | 0, _ => []
  | fuel + 1, n =>
    if n < 10 then [digitChar n]
    else natCharsAux fuel (n / 10) ++ [digitChar (n % 10)]

/-- Decimal rendering of a natural number. -/
def natChars (n : Nat) : Chars := natCharsAux (n + 1) n

/-- Go `fmt.Sprintf("%d", _)` on the integer values the driver produces. -/
def goFmtD : GoVal → Chars
  | .int n => if n < 0 then '-' :: natChars (- n).toNat else natChars n.toNat
  | v => ("%!d(").toList ++ goValTag v ++ [')']
where
  /-- Verb-error tag for `fmt` verbs applied to an unexpected dynamic type;
  only the shape matters, no claim evaluates these. -/
  goValTag : GoVal → Chars
    | .bytes _ => ("bytes").toList
    | .int _ => ("int64").toList
    | .flt _ => ("float64").toList
    | .time _ => ("time.Time").toList
    | .str _ => ("string").toList
    | .bool _ => ("bool").toList

/-- Zero-padded decimal rendering of width `w` (Go layouts `01`, `2006`...). -/
def padChars (w n : Nat) : Chars :=
  let d := natChars n
  List.replicate (w - d.length) '0' ++ d

/-- `t.Format("2006-01-02")`. -/
def fmtDate (t : GoTime) : Chars :=
  padChars 4 t.year ++ ['-'] ++ padChars 2 t.month ++ ['-'] ++ padChars 2 t.day

/-- `t.Format("2006-01-02 15:04:05")` (= `DEFAULT_LOG_TIMESTAMP`). -/
def fmtDateTime (t : GoTime) : Chars :=
  fmtDate t ++ [' '] ++ padChars 2 t.hour ++ [':'] ++ padChars 2 t.minute
    ++ [':'] ++ padChars 2 t.second

/-- Go `fmt.Sprintf("%s", _)`: byte slices and strings render as their own
bytes; other dynamic types are unreachable from the driver for the columns
that use `%s` and render as a verb tag. -/
def goFmtS : GoVal → Chars
  | .bytes b => b
  | .str s => s
  | v => ("%!s(").toList ++ goFmtD.goValTag v ++ [')']

def hexDigitU (n : Nat) : Char :=
  if n < 10 then digitChar n else Char.ofNat (65 + (n - 10))

/-- Go `fmt.Sprintf("%X", _)` on a byte slice: uppercase hex, two digits per
byte; other dynamic types render as a verb tag. -/
def goFmtX : GoVal → Chars
  | .bytes b => (b.map (fun c => [hexDigitU (c.toNat / 16 % 16), hexDigitU (c.toNat % 16)])).flatten
  | v => ("%!X(").toList ++ goFmtD.goValTag v ++ [')']

/-- The single-quote character (ASCII 39). -/
def sq : Char := Char.ofNat 39
/-- The double-quote character (ASCII 34). -/
def dq : Char := Char.ofNat 34
/-- The backslash character (ASCII 92). -/
def bsl : Char := Char.ofNat 92

/-- The replacement table of `sanitize` (util.go): NUL, single quote, double
quote, backspace, newline, carriage return and SUB (0x1A). -/
def sanitizeChar (c : Char) : Chars :=
  if c = '\x00' then [bsl, '0']
  else if c = sq then [bsl, sq]
  else if c = dq then [bsl, dq]
  else if c = '\x08' then [bsl, 'b']
  else if c = '\n' then [bsl, 'n']
  else if c = '\r' then [bsl, 'r']
  else if c = '\x1a' then [bsl, 'Z']
  else [c]

/-- `sanitize` (util.go): a `strings.Replacer` over the seven single-byte
patterns above, applied left to right. -/
def sanitizeGo (s : Chars) : Chars :=
  (s.map sanitizeChar).flatten

/-- SQL-quote a rendered value: `fmt.Sprintf("'%s'", _)`. -/
def sqlQuote (s : Chars) : Chars := sq :: s ++ [sq]

/-- The type-name normalization at the head of `buildRowData`:
strip `UNSIGNED`, then strip spaces. -/
def normalizeType (tn : Chars) : Chars :=
  goReplace ([' ']) [] (goReplace (("UNSIGNED").toList) [] tn)

def intTys : List Chars :=
  [("TINYINT").toList, ("SMALLINT").toList, ("MEDIUMINT").toList,
   ("INT").toList, ("INTEGER").toList, ("BIGINT").toList]
def fltTys : List Chars := [("FLOAT").toList, ("DOUBLE").toList]
def decTys : List Chars := [("DECIMAL").toList, ("DEC").toList]
def dtTys : List Chars := [("DATETIME").toList, ("TIMESTAMP").toList]
def charTys : List Chars :=
  [("CHAR").toList, ("VARCHAR").toList, ("TINYTEXT").toList, ("TEXT").toList,
   ("MEDIUMTEXT").toList, ("LONGTEXT").toList]
def binTys : List Chars :=
  [("BIT").toList, ("BINARY").toList, ("VARBINARY").toList, ("TINYBLOB").toList,
   ("BLOB").toList, ("MEDIUMBLOB").toList, ("LONGBLOB").toList]
def enumTys : List Chars := [("ENUM").toList, ("SET").toList, ("JSON").toList]
def boolTys : List Chars := [("BOOL").toList, ("BOOLEAN").toList]

/-- Every type name with a case in the `buildRowData` switch. -/
def supportedTys : List Chars :=
  intTys ++ fltTys ++ decTys ++ [("DATE").toList] ++ dtTys
    ++ [("TIME").toList] ++ [("YEAR").toList] ++ charTys ++ binTys
    ++ enumTys ++ boolTys

/-- The outcome of formatting one column: either literal text appended to the
row (processing continues), or an immediate `return "", err` from
`buildRowData` (`e = none` models `err == nil`). -/
inductive CellOut where
  | text (s : Chars)
  | halt (e : Option Chars)
deriving DecidableEq

def unsupportedMsg (t : Chars) : Chars := ("unsupported type: ").toList ++ t

/-- The per-column switch of `buildRowData` on a non-NULL value.  The
`BOOL` case models the Go type assertion `col.(bool)`, which panics on any
other dynamic type, as a halting error. -/
def formatCell (tnRaw : Chars) (v : GoVal) : CellOut :=
  let T := normalizeType tnRaw
  if T ∈ intTys then
    .text (match v with | .bytes b => b | w => goFmtD w)
  else if T ∈ fltTys then
    .text (match v with | .bytes b => b | .flt b => b | w => goFmtD w)
  else if T ∈ decTys then
    .text (goFmtS v)
  else if T = ("DATE").toList then
    match v with | .time t => .text (sqlQuote (fmtDate t)) | _ => .halt none
  else if T ∈ dtTys then
    match v with | .time t => .text (sqlQuote (fmtDateTime t)) | _ => .halt none
  else if T = ("TIME").toList then
    match v with | .bytes b => .text (sqlQuote b) | _ => .halt none
  else if T = ("YEAR").toList then
    match v with | .bytes b => .text b | _ => .halt none
  else if T ∈ charTys then
    .text (sqlQuote (sanitizeGo (goFmtS v)))
  else if T ∈ binTys then
    .text (['0', 'x'] ++ goFmtX v)
  else if T ∈ enumTys then
    .text (sqlQuote (goFmtS v))
  else if T ∈ boolTys then
    match v with
    | .bool b => .text (if b then ("true").toList else ("false").toList)
    | _ => .halt (some (("panic: interface conversion").toList))
  else
    .halt (some (unsupportedMsg T))

/-- One column slot: `nil` (SQL NULL) or a driver value. -/
abbrev Col := Option GoVal
/-- One scanned row. -/
abbrev Row := List Col

/-- Formatting a column slot: a NULL emits the literal `NULL` without type
dispatch. -/
def cellOf (c : Col) (tn : Chars) : CellOut :=
  match c with
  | none => .text (("NULL").toList)
  | some v => formatCell tn v

inductive RowOut where
  | done (s : Chars)
  | halted (e : Option Chars)
deriving DecidableEq

/-- The loop of `buildRowData`: columns left to right, a `,` after every
column but the last; any `return "", err` discards the accumulated text.
A row longer than the type list would make the Go code panic on the
`columnTypes[i]` index; the driver guarantees equal lengths. -/
def buildRowAux : Row → List Chars → RowOut
  | [], _ => .done []
  | _ :: _, [] => .halted (some (("panic: index out of range").toList))
  | c :: cs, t :: ts =>
    match cellOf c t with
    | .halt e => .halted e
    | .text s =>
      match buildRowAux cs ts with
      | .halted e => .halted e
      | .done r => .done (s ++ (if cs = [] then [] else [',']) ++ r)

/-- `buildRowData` as the Go pair `(ssql, err)`. -/
def buildRowDataGo (row : Row) (types : List Chars) : (Chars × Option Chars) :=
  match buildRowAux row types with
  | .done s => (s, none)
  | .halted e => ([], e)

/-! ### The row batch emitter (writeTableData) -/

/-- The per-batch `INSERT` prefix built by `writeTableData`:
`"INSERT INTO `" + table + "` (`" + strings.Join(columns, "`,`") + "`) VALUES \n"`. -/
def insertPre (table : Chars) (columns : List Chars) : Chars :=
  ("INSERT INTO `").toList ++ table ++ ("` (`").toList
    ++ goJoin (("`,`").toList) columns ++ ("`) VALUES \n").toList

/-- The row loop of `writeTableData`: `rowId` is the running counter, `per`
the `perDataNumber` option.  Returns what the loop writes to the buffered
writer and the error, if any.  In the non-boundary branch the `",\n"` is
written before the row is scanned and formatted, so it survives a formatting
error; a batch-boundary prefix is built in `ssql` and written only after
`buildRowData` succeeds. -/
def wtdLoop (P : Chars) (types : List Chars) (per : Int) :
    List Row → Int → (Chars × Option Chars)
  | [], _ => ([], none)
  | row :: rest, rowId =>
    let boundary : Prop := rowId = 0 ∨ per < 2 ∨ rowId % per = 0
    let sep : Chars := if boundary then [] else (",\n").toList
    let pre : Chars :=
      if boundary then (if rowId > 0 then (";\n").toList else []) ++ P else []
    match buildRowDataGo row types with
    | (_, some e) => (sep, some e)
    | (v, none) =>
      let q := wtdLoop P types per rest (rowId + 1)
      (sep ++ pre ++ ['('] ++ v ++ [')'] ++ q.1, q.2)

/-- The fixed text written before any row of the data section of `table`:
comment header, `LOCK TABLES ... WRITE` and the key-disable pragma. -/
def framePre (table : Chars) : Chars :=
  ("-- ----------------------------\n").toList
    ++ ("--Dumping data for table ").toList ++ table ++ ['\n']
    ++ ("-- ----------------------------\n").toList
    ++ ("LOCK TABLES `").toList ++ table ++ ("` WRITE;\n").toList
    ++ ("/*!40000 ALTER TABLE `").toList ++ table ++ ("` DISABLE KEYS */;\n").toList

/-- The fixed text written after the rows: key-enable pragma and
`UNLOCK TABLES` (the stray terminating `";\n"` is written before it,
unconditionally). -/
def frameEnd (table : Chars) : Chars :=
  ("/*!40000 ALTER TABLE `").toList ++ table ++ ("` ENABLE KEYS */;\n").toList
    ++ ("UNLOCK TABLES;\n\n").toList

/-- `writeTableData` as (text written to the writer, error): rows are the
scanned driver rows of `SELECT * FROM table`.  On a row error the function
returns immediately, leaving the already-written text in the writer. -/
def writeTableDataGo (table : Chars) (columns : List Chars)
    (types : List Chars) (rows : List Row) (per : Int) : (Chars × Option Chars) :=
  let q := wtdLoop (insertPre table columns) types per rows 0
  match q.2 with
  | some e => (framePre table ++ q.1, some e)
  | none => (framePre table ++ q.1 ++ (";\n").toList ++ frameEnd table, none)

/-! ### The trigger cache (getTrigger) -/

/-- One row of `SHOW TRIGGERS`, restricted to the five columns
`getTrigger` reads into a `triggerStruct`. -/
structure TrigRec where
  trg : Chars
  event : Chars
  tbl : Chars
  statement : Chars
  timing : Chars
deriving DecidableEq

/-- The table-to-triggers mapping as an association list (Go map iteration
order does not matter for the claims: lookups are by key). -/
abbrev TrigMap := List (Chars × List TrigRec)

/-- `allTriggers[t.Table] = append(allTriggers[t.Table], t)`. -/
def tmAppend : TrigMap → Chars → TrigRec → TrigMap
  | [], k, v => [(k, [v])]
  | (k', vs) :: rest, k, v =>
    if k' = k then (k', vs ++ [v]) :: rest else (k', vs) :: tmAppend rest k v

/-- Map lookup: a missing key yields the zero value `nil` slice. -/
def tmGet (m : TrigMap) (k : Chars) : List TrigRec :=
  match m.find? (fun p => p.1 = k) with
  | some p => p.2
  | none => []

/-- The mapping the first `getTrigger` call builds from the `SHOW TRIGGERS`
result rows. -/
def buildTrigMap (rows : List TrigRec) : TrigMap :=
  rows.foldl (fun m r => tmAppend m r.tbl r) []

/-- `getTrigger`: `st` is the process-global `allTriggers` (`none` = Go
`nil`).  Returns the triggers for `table`, the new global state, and the
number of `SHOW TRIGGERS` queries this call issued. -/
def getTriggerGo (queryRows : List TrigRec) (table : Chars)
    (st : Option TrigMap) : (List TrigRec × Option TrigMap × Nat) :=
  match st with
  | some m => (tmGet m table, some m, 0)
  | none =>
    let m := buildTrigMap queryRows
    (tmGet m table, some m, 1)

/-- A dump session requesting triggers for a list of tables in order:
total number of enumeration queries issued and the final global state. -/
def runTriggerCalls (queryRows : List TrigRec) :
    List Chars → Option TrigMap → (Nat × Option TrigMap)
  | [], st => (0, st)
  | t :: ts, st =>
    let r := getTriggerGo queryRows t st
    let q := runTriggerCalls queryRows ts r.2.1
    (r.2.2 + q.1, q.2)

/-! ### Definitions modelled from the spec (for comparison only) -/

/-- Modelled from the spec: the claim that `ReadStatement` reads "up to the
next unescaped `;` terminator (a `;` that is escaped or inside a quoted
literal does not terminate a statement)".  `inQ` tracks whether the scanner
is inside a single-quoted literal; a backslash escapes the next character. -/
def specReadStmtAux : Chars → Bool → Option (Chars × Chars)
  | [], _ => none
  | c :: cs, inQ =>
    if c = ';' ∧ inQ = false then some ([';'], cs)
    else if c = bsl then
      match cs with
      | [] => none
      | c2 :: cs2 =>
        match specReadStmtAux cs2 inQ with
        | none => none
        | some (l, r) => some (c :: c2 :: l, r)
    else
      match specReadStmtAux cs (if c = sq then !inQ else inQ) with
      | none => none
      | some (l, r) => some (c :: l, r)

/-- Modelled from the spec: the statement boundary the claim describes, from
the start of the stream (outside any literal). -/
def specReadStmt (s : Chars) : Option (Chars × Chars) :=
  specReadStmtAux s false

/-- Modelled from the spec: the decoding a "compliant SQL parser" applies to
a complete single-quoted MySQL string literal — `\0 \b \n \r \Z \' \" \\`
decode to their characters, an unrecognized escape decodes to the escaped
character itself, `''` decodes to a quote, and the literal must end at the
closing quote.  `none` models a malformed literal. -/
def sqlUnescChar (c : Char) : Char :=
  if c = '0' then '\x00'
  else if c = 'b' then '\x08'
  else if c = 'n' then '\n'
  else if c = 'r' then '\r'
  else if c = 'Z' then '\x1a'
  else if c = 't' then '\t'
  else c

def sqlDecodeAux : Chars → Option Chars
  | [] => none
  | c :: cs =>
    if c = bsl then
      match cs with
      | [] => none
      | c2 :: cs2 => (sqlDecodeAux cs2).map (fun r => sqlUnescChar c2 :: r)
    else if c = sq then
      match cs with
      | [] => some []
      | c2 :: cs2 =>
        if c2 = sq then (sqlDecodeAux cs2).map (fun r => sq :: r)
        else none
    else
      (sqlDecodeAux cs).map (fun r => c :: r)

/-- Modelled from the spec: decode a complete single-quoted SQL literal back
to the bytes it denotes. -/
def sqlDecodeLit (s : Chars) : Option Chars :=
  match s with
  | c :: cs => if c = sq then sqlDecodeAux cs else none
  | [] => none

/-- Go `strings.Contains`. -/
def goContains (pat s : Chars) : Bool :=
  (goIdx pat s).isSome

/-- Split a list into consecutive chunks of `n` elements (the last chunk may
be shorter); the shape of the batches the row batch emitter produces. -/
def chunksOf (n : Nat) : List Chars → List (List Chars)
  | [] => []
  | x :: xs => (x :: xs.take (n - 1)) :: chunksOf n (xs.drop (n - 1))
termination_by l => l.length
decreasing_by simp only [List.length_cons, List.length_drop]; omega

/-- A row tuple as the emitter prints it. -/
def tupleOf (v : Chars) : Chars := '(' :: v ++ [')']

/-- The continuation tuples within one batch: each preceded by `",\n"`. -/
def commaTuples (vs : List Chars) : Chars :=
  (vs.map (fun v => (",\n").toList ++ tupleOf v)).flatten

/-- The batched data body the claim describes: rows chunked into groups of
`per`, each group one `INSERT` statement (prefix `P` followed by the comma
separated tuples), statements separated by `";\n"`. -/
def bodyExpected (P : Chars) (per : Int) (vs : List Chars) : Chars :=
  goJoin ((";\n").toList)
    ((chunksOf per.toNat vs).map (fun ch => P ++ goJoin ((",\n").toList) (ch.map tupleOf)))

/-- The text the `writeTableData` row loop emits for already-formatted row
strings `vs` starting at counter `rowId` (the loop's output as a function of
the formatted tuples alone). -/
def expBody (P : Chars) (per : Int) : List Chars → Int → Chars
  | [], _ => []
  | v :: vs, rowId =>
    (if rowId = 0 ∨ per < 2 ∨ rowId % per = 0 then
      (if rowId > 0 then (";\n").toList else []) ++ P
     else (",\n").toList)
      ++ ['('] ++ v ++ [')'] ++ expBody P per vs (rowId + 1)

/-- The `INSERT` prefix of the single-table statements used in the C3 test
stream. -/
def cPre : Chars := ("INSERT INTO `t` VALUES ").toList

/-- A single-row `INSERT` statement over value tuple `t`. -/
def cStmt (t : Chars) : Chars := cPre ++ t ++ [';']

/-- The C1 failing input: two `INSERT` statements followed by an `UPDATE`,
restored with merge size 3. -/
def c1Input : Chars :=
  ("INSERT INTO `t` VALUES (1);INSERT INTO `t` VALUES (2);UPDATE `t` SET a=2;").toList

/-- The C7 counterexample input: a statement whose quoted literal contains a
`;`. -/
def c7Input : Chars :=
  ("SELECT ").toList ++ [sq] ++ ("a;b").toList ++ [sq] ++ [';']

/-- A prefix of the restore stream that ends exactly at a statement
boundary (empty, or its last byte is the `;` terminator). -/
def SemiEnded (w : Chars) : Prop :=
  w = [] ∨ w.getLast? = some ';'

/-! ### Supporting lemmas -/

theorem readStringSemi_some_shape {s l r : Chars}
    (h : readStringSemi s = some (l, r)) : s = l ++ r := by
  induction s generalizing l r with
  | nil => simp [readStringSemi] at h
  | cons c cs ih =>
    by_cases hc : c = ';'
    · simp [readStringSemi, hc] at h
      obtain ⟨h1, h2⟩ := h
      simp [← h1, ← h2, hc]
    · simp only [readStringSemi, if_neg hc] at h
      cases hr : readStringSemi cs with
      | none => rw [hr] at h; simp at h
      | some p =>
        obtain ⟨l', r'⟩ := p
        rw [hr] at h
        simp at h
        obtain ⟨h1, h2⟩ := h
        subst h2
        rw [← h1]
        simpa using ih hr

theorem readStringSemi_ne_nil {s l r : Chars}
    (h : readStringSemi s = some (l, r)) : l ≠ [] := by
  induction s generalizing l r with
  | nil => simp [readStringSemi] at h
  | cons c cs ih =>
    by_cases hc : c = ';'
    · simp [readStringSemi, hc] at h
      obtain ⟨h1, _⟩ := h
      simp [← h1]
    · simp only [readStringSemi, if_neg hc] at h
      cases hr : readStringSemi cs with
      | none => rw [hr] at h; simp at h
      | some p =>
        rw [hr] at h
        simp at h
        obtain ⟨h1, _⟩ := h
        simp [← h1]

theorem readStringSemi_length_lt {s l r : Chars}
    (h : readStringSemi s = some (l, r)) : r.length < s.length := by
  have hs := readStringSemi_some_shape h
  have hl := readStringSemi_ne_nil h
  subst hs
  simp only [List.length_append]
  have : 0 < l.length := List.length_pos.mpr hl
  omega

theorem accumulate_length_le (k : Nat) (rest : Chars) (acc : List Chars) :
    (accumulate k rest acc).2.length ≤ rest.length := by
  induction k generalizing rest acc with
  | zero => simp [accumulate]
  | succ k ih =>
    simp only [accumulate]
    cases hr : readStringSemi rest with
    | none => simp
    | some p =>
      obtain ⟨line, rest'⟩ := p
      have hlt := readStringSemi_length_lt hr
      by_cases hins : goStarts insertIntoPat (trimGo line) = true
      · simp only [if_pos hins]
        exact le_trans (ih rest' _) (le_of_lt hlt)
      · simp only [if_neg hins]
        exact le_of_lt hlt

theorem sourceLoopF_fuel_irrel (m : Int) :
    ∀ f₁ f₂ input, input.length < f₁ → input.length < f₂ →
      sourceLoopF m f₁ input = sourceLoopF m f₂ input := by
  intro f₁
  induction f₁ with
  | zero => intro f₂ input h1 _; omega
  | succ f ih =>
    intro f₂ input h1 h2
    cases f₂ with
    | zero => omega
    | succ f₂ =>
      simp only [sourceLoopF]
      cases hr : readStringSemi input with
      | none => rfl
      | some p =>
        obtain ⟨line, rest⟩ := p
        have hlt := readStringSemi_length_lt hr
        by_cases hc : 1 < m ∧ goStarts insertIntoPat (trimGo line) = true
        · simp only [if_pos hc]
          have hacc := accumulate_length_le (m - 1).toNat rest [trimGo line]
          cases hm : mergeInsertGo (accumulate (m - 1).toNat rest [trimGo line]).1 with
          | mk merged e =>
            cases e with
            | none =>
              simp only
              rw [ih f₂ _ (by omega) (by omega)]
            | some err => simp
        · simp only [if_neg hc]
          rw [ih f₂ rest (by omega) (by omega)]

/-- One-step unfolding of `sourceLoop`. -/
theorem sourceLoop_eq (m : Int) (input : Chars) :
    sourceLoop m input =
      match readStringSemi input with
      | none => ([], none)
      | some (line, rest) =>
        let s := trimGo line
        if 1 < m ∧ goStarts insertIntoPat s = true then
          let p := accumulate (m - 1).toNat rest [s]
          match mergeInsertGo p.1 with
          | (_, some e) => ([], some e)
          | (merged, none) =>
            let q := sourceLoop m p.2
            (merged :: q.1, q.2)
        else
          let q := sourceLoop m rest
          (s :: q.1, q.2) := by
  show sourceLoopF m (input.length + 1) input = _
  conv_lhs => rw [sourceLoopF]
  cases hr : readStringSemi input with
  | none => rfl
  | some p =>
    obtain ⟨line, rest⟩ := p
    have hlt := readStringSemi_length_lt hr
    by_cases hc : 1 < m ∧ goStarts insertIntoPat (trimGo line) = true
    · simp only [if_pos hc]
      have hacc := accumulate_length_le (m - 1).toNat rest [trimGo line]
      cases hm : mergeInsertGo (accumulate (m - 1).toNat rest [trimGo line]).1 with
      | mk merged e =>
        cases e with
        | none =>
          have hirr := sourceLoopF_fuel_irrel m input.length
            ((accumulate (m - 1).toNat rest [trimGo line]).2.length + 1)
            (accumulate (m - 1).toNat rest [trimGo line]).2 (by omega) (by omega)
          simp only [sourceLoop, hirr]
        | some err => simp
    · simp only [if_neg hc]
      have hirr := sourceLoopF_fuel_irrel m input.length (rest.length + 1) rest
        (by omega) (by omega)
      simp only [sourceLoop, hirr]

theorem takeLenApp (a b : Chars) : (a ++ b).take a.length = a := by
  induction a with
  | nil => simp
  | cons c cs ih => simp [ih]

theorem dropApp (n : Nat) (a b : Chars) (h : n ≤ a.length) :
    (a ++ b).drop n = a.drop n ++ b := by
  induction a generalizing n with
  | nil => simp at h; simp [h]
  | cons c cs ih =>
    cases n with
    | zero => simp
    | succ k =>
      simp only [List.cons_append, List.drop_succ_cons]
      exact ih k (by simpa using h)

theorem goStarts_app {p x : Chars} (z : Chars) (h : goStarts p x = true) :
    goStarts p (x ++ z) = true := by
  induction p generalizing x with
  | nil => simp [goStarts]
  | cons c cs ih =>
    cases x with
    | nil => simp [goStarts] at h
    | cons d ds =>
      simp only [goStarts, Bool.and_eq_true, beq_iff_eq] at h
      simp only [List.cons_append, goStarts, Bool.and_eq_true, beq_iff_eq]
      exact ⟨h.1, ih h.2⟩

theorem goStarts_app_eq {p x : Chars} (z : Chars) (h : p.length ≤ x.length) :
    goStarts p (x ++ z) = goStarts p x := by
  induction p generalizing x with
  | nil => simp [goStarts]
  | cons c cs ih =>
    cases x with
    | nil => simp at h
    | cons d ds =>
      show goStarts (c :: cs) (d :: (ds ++ z)) = _
      simp only [goStarts]
      rw [ih (by simpa using h)]

theorem goIdx_app {pat x : Chars} (z : Chars) {k : Nat}
    (h : goIdx pat x = some k) (hk : k + pat.length ≤ x.length) :
    goIdx pat (x ++ z) = some k := by
  induction x generalizing k with
  | nil =>
    simp only [goIdx] at h
    by_cases hp : goStarts pat [] = true
    · simp only [if_pos hp] at h
      obtain rfl : 0 = k := by simpa using h
      cases pat with
      | nil => cases z <;> simp [goIdx, goStarts]
      | cons c cs => simp [goStarts] at hp
    · simp [if_neg hp] at h
  | cons c cs ih =>
    by_cases hp : goStarts pat (c :: cs) = true
    · simp only [goIdx, if_pos hp] at h
      obtain rfl : 0 = k := by simpa using h
      have hps : goStarts pat ((c :: cs) ++ z) = true := goStarts_app z hp
      show goIdx pat (c :: (cs ++ z)) = some 0
      simp only [goIdx]
      rw [if_pos (by exact hps)]
    · simp only [goIdx, if_neg hp] at h
      cases hi : goIdx pat cs with
      | none => rw [hi] at h; simp at h
      | some k' =>
        rw [hi] at h
        obtain rfl : k' + 1 = k := by simpa using h
        have hlen : pat.length ≤ (c :: cs).length := by
          simp only [List.length_cons] at hk ⊢; omega
        have hp' : goStarts pat ((c :: cs) ++ z) = false := by
          rw [goStarts_app_eq z hlen]
          simpa using hp
        show goIdx pat (c :: (cs ++ z)) = some (k' + 1)
        simp only [goIdx]
        rw [if_neg (by rw [show (c :: (cs ++ z)) = (c :: cs) ++ z from rfl, hp']; simp)]
        rw [ih hi (by simp only [List.length_cons] at hk; omega)]
        rfl

theorem readStringSemi_of_not_mem {s : Chars} (h : ';' ∉ s) :
    readStringSemi s = none := by
  induction s with
  | nil => rfl
  | cons c cs ih =>
    simp only [List.mem_cons, not_or] at h
    simp only [readStringSemi, if_neg (Ne.symm h.1), ih h.2]

theorem readStringSemi_none_not_mem {s : Chars} (h : readStringSemi s = none) :
    ';' ∉ s := by
  induction s with
  | nil => simp
  | cons c cs ih =>
    by_cases hc : c = ';'
    · simp [readStringSemi, hc] at h
    · simp only [readStringSemi, if_neg hc] at h
      cases hr : readStringSemi cs with
      | none => simpa [hc, Ne.symm] using fun hm => (ih hr) hm
      | some p => rw [hr] at h; simp at h

theorem readStringSemi_split {a : Chars} (b : Chars) (h : ';' ∉ a) :
    readStringSemi (a ++ ';' :: b) = some (a ++ [';'], b) := by
  induction a with
  | nil => simp [readStringSemi]
  | cons c cs ih =>
    simp only [List.mem_cons, not_or] at h
    show readStringSemi (c :: (cs ++ ';' :: b)) = _
    simp only [readStringSemi, if_neg (Ne.symm h.1)]
    rw [ih h.2]
    simp

theorem readStringSemi_app {s l r : Chars} (t : Chars)
    (h : readStringSemi s = some (l, r)) :
    readStringSemi (s ++ t) = some (l, r ++ t) := by
  induction s generalizing l r with
  | nil => simp [readStringSemi] at h
  | cons c cs ih =>
    by_cases hc : c = ';'
    · simp [readStringSemi, hc] at h ⊢
      obtain ⟨h1, h2⟩ := h
      simp [← h1, ← h2]
    · simp only [readStringSemi, if_neg hc] at h
      cases hr : readStringSemi cs with
      | none => rw [hr] at h; simp at h
      | some p =>
        obtain ⟨l', r'⟩ := p
        rw [hr] at h
        simp only [Option.some_inj, Prod.mk.injEq] at h
        obtain ⟨h1, h2⟩ := h
        subst h2
        show readStringSemi (c :: (cs ++ t)) = _
        simp only [readStringSemi, if_neg hc]
        rw [ih hr]
        simp [← h1]

/-- `trim` leaves a statement alone when its first character is neither a
newline nor whitespace and its last character is not whitespace. -/
theorem trimGo_noop (c d : Char) (mid : Chars)
    (hc : goIsSpace c = false) (hd : goIsSpace d = false) :
    trimGo (c :: mid ++ [d]) = c :: mid ++ [d] := by
  have hcn : (c == '\n') = false := by
    simp only [goIsSpace, Bool.or_eq_false_iff] at hc
    exact hc.1.1.1.2
  simp only [trimGo, List.cons_append, List.dropWhile_cons, hcn, Bool.false_eq_true,
    if_false, goTrimSpace]
  rw [show (c :: (mid ++ [d])) = (c :: mid) ++ [d] from rfl]
  simp only [List.dropWhile_cons, hc, Bool.false_eq_true, if_false]
  rw [List.reverse_append]
  simp only [List.reverse_cons, List.reverse_nil, List.nil_append, List.singleton_append,
    List.dropWhile_cons, hd, Bool.false_eq_true, if_false]
  simp

/-- A column whose cell formatting halts makes `buildRowData` return the
halting outcome, whatever the earlier (successfully formatted) columns and
the later columns are. -/
theorem buildRowAux_halt {pre : Row} {tpre : List Chars}
    (hpre : List.Forall₂ (fun c t => ∃ s, cellOf c t = .text s) pre tpre)
    {c : Col} {t : Chars} {e : Option Chars} (hc : cellOf c t = .halt e)
    (post : Row) (tpost : List Chars) :
    buildRowAux (pre ++ c :: post) (tpre ++ t :: tpost) = .halted e := by
  induction hpre with
  | nil => simp only [List.nil_append, buildRowAux, hc]
  | cons hh htl ih =>
    obtain ⟨s, hs⟩ := hh
    simp only [List.cons_append, buildRowAux, hs, List.append_eq, ih]

/-- Every type name without a case in the `buildRowData` switch yields the
explicit unsupported-type error, for any non-NULL value. -/
theorem formatCell_unsupported {tn : Chars} (h : normalizeType tn ∉ supportedTys)
    (v : GoVal) :
    formatCell tn v = .halt (some (unsupportedMsg (normalizeType tn))) := by
  have hm := h
  simp only [supportedTys, List.mem_append, not_or] at hm
  obtain ⟨⟨⟨⟨⟨⟨⟨⟨⟨⟨h1, h2⟩, h3⟩, h4⟩, h5⟩, h6⟩, h7⟩, h8⟩, h9⟩, h10⟩, h11⟩ := hm
  have h4' : ¬ normalizeType tn = ("DATE").toList := by simpa using h4
  have h6' : ¬ normalizeType tn = ("TIME").toList := by simpa using h6
  have h7' : ¬ normalizeType tn = ("YEAR").toList := by simpa using h7
  simp only [formatCell]
  rw [if_neg h1, if_neg h2, if_neg h3, if_neg h4', if_neg h5, if_neg h6',
    if_neg h7', if_neg h8, if_neg h9, if_neg h10, if_neg h11]

/-- A halting row makes the `writeTableData` loop abort with that error and
emit nothing that depends on the remaining rows. -/
theorem wtdLoop_halt_eq {types : List Chars} {bad : Row} {e : Chars}
    (hbad : buildRowDataGo bad types = ([], some e)) (P : Chars) (per : Int) :
    ∀ (good : List Row) (rest rest' : List Row) (rowId : Int),
      (∀ r ∈ good, (buildRowDataGo r types).2 = none) →
      wtdLoop P types per (good ++ bad :: rest) rowId =
        wtdLoop P types per (good ++ bad :: rest') rowId ∧
      (wtdLoop P types per (good ++ bad :: rest) rowId).2 = some e := by
  intro good
  induction good with
  | nil =>
    intro rest rest' rowId _
    refine ⟨?_, ?_⟩ <;> simp only [List.nil_append, wtdLoop, hbad]
  | cons g gs ih =>
    intro rest rest' rowId hg
    have hgn : (buildRowDataGo g types).2 = none := hg g (by simp)
    obtain ⟨v, hv⟩ : ∃ v, buildRowDataGo g types = (v, none) := by
      refine ⟨(buildRowDataGo g types).1, ?_⟩
      cases hb : buildRowDataGo g types with
      | mk a b => rw [hb] at hgn; simpa using hgn.symm ▸ rfl
    have ihr := ih rest rest' (rowId + 1) (fun r hr => hg r (by simp [hr]))
    refine ⟨?_, ?_⟩
    · simp only [List.cons_append, wtdLoop, hv, List.append_eq]
      rw [ihr.1]
    · simp only [List.cons_append, wtdLoop, hv, List.append_eq]
      exact ihr.2

theorem runTriggerCalls_cached (queryRows : List TrigRec) (m : TrigMap) :
    ∀ ts, runTriggerCalls queryRows ts (some m) = (0, some m) := by
  intro ts
  induction ts with
  | nil => rfl
  | cons t ts ih => simp [runTriggerCalls, getTriggerGo, ih]

/-! ### The claims -/

/-- C1: the claim states that during restore with merge size M>1, a statement
read during batch accumulation that does not begin with `INSERT INTO` is
carried forward and still executed, and that every statement read from the
stream is dispatched exactly once.  The code contradicts this: on the
concrete stream `INSERT;INSERT;UPDATE;` with merge size 3, the `UPDATE`
statement is read during accumulation, dropped, and never dispatched — the
loop executes exactly one (merged) statement. -/
theorem c1_merge_discards_nonmatching_statement :
    sourceLoop 3 c1Input = ([("INSERT INTO `t` VALUES (1), (2);").toList], none) ∧
    trimGo (("UPDATE `t` SET a=2;").toList) ∉ (sourceLoop 3 c1Input).1 ∧
    sourceRun 3 c1Input =
      ([("INSERT INTO `t` VALUES (1), (2);").toList,
        ("COMMIT;").toList, ("SET autocommit=1;").toList], none) :=
  ⟨by decide, by decide, by decide⟩

/-- C2: the claim states that escaping a textual value containing any of
quote, backslash, NUL, backspace, newline, CR or SUB is a lossless round
trip through a compliant SQL parser.  The code contradicts this: `sanitize`
has no rule for the backslash, so the two-byte value `\n` (backslash, `n`)
is emitted verbatim inside the quoted literal, and a compliant parser
decodes that literal to the one-byte newline, not the original bytes. -/
theorem c2_escape_backslash_not_roundtrip :
    formatCell (("VARCHAR").toList) (.str [bsl, 'n'])
      = .text (sqlQuote (sanitizeGo [bsl, 'n'])) ∧
    sqlQuote (sanitizeGo [bsl, 'n']) = [sq, bsl, 'n', sq] ∧
    sqlDecodeLit (sqlQuote (sanitizeGo [bsl, 'n'])) = some ['\n'] ∧
    (['\n'] : Chars) ≠ [bsl, 'n'] :=
  ⟨by decide, by decide, by decide, by decide⟩

/-- C5: a row containing a non-NULL value whose normalized declared type has
no case in the formatter switch makes `buildRowData` fail with an explicit
unsupported-type error naming the type; `writeTableData` aborts immediately
with that error, and the emitted output is independent of every row from the
failing one onward (no silent drop, no partial row emission). -/
theorem c5_unsupported_type_aborts
    (table : Chars) (columns : List Chars)
    (pre : Row) (tpre : List Chars) (v : GoVal) (tn : Chars)
    (post : Row) (tpost : List Chars)
    (good : List Row) (rest rest' : List Row) (per : Int)
    (hpre : List.Forall₂ (fun c t => ∃ s, cellOf c t = .text s) pre tpre)
    (hT : normalizeType tn ∉ supportedTys)
    (hgood : ∀ r ∈ good, (buildRowDataGo r (tpre ++ tn :: tpost)).2 = none) :
    buildRowDataGo (pre ++ some v :: post) (tpre ++ tn :: tpost)
      = ([], some (unsupportedMsg (normalizeType tn))) ∧
    writeTableDataGo table columns (tpre ++ tn :: tpost)
        (good ++ (pre ++ some v :: post) :: rest) per
      = writeTableDataGo table columns (tpre ++ tn :: tpost)
          (good ++ (pre ++ some v :: post) :: rest') per ∧
    (writeTableDataGo table columns (tpre ++ tn :: tpost)
        (good ++ (pre ++ some v :: post) :: rest) per).2
      = some (unsupportedMsg (normalizeType tn)) := by
  have hcell : cellOf (some v) tn = .halt (some (unsupportedMsg (normalizeType tn))) := by
    simpa [cellOf] using formatCell_unsupported hT v
  have hrow : buildRowDataGo (pre ++ some v :: post) (tpre ++ tn :: tpost)
      = ([], some (unsupportedMsg (normalizeType tn))) := by
    simp [buildRowDataGo, buildRowAux_halt hpre hcell]
  have hw := wtdLoop_halt_eq hrow (insertPre table columns) per good rest rest' 0 hgood
  refine ⟨hrow, ?_, ?_⟩
  · simp only [writeTableDataGo, hw.1]
  · simp only [writeTableDataGo, hw.2]

/-- Witness for C5 at a concrete input: a `GEOMETRY` column aborts the
table's data section with the explicit error. -/
theorem c5_unsupported_type_aborts_witness :
    normalizeType (("GEOMETRY").toList) ∉ supportedTys ∧
    (writeTableDataGo (("t").toList) [("a").toList, ("g").toList]
        ([("VARCHAR").toList] ++ ("GEOMETRY").toList :: [])
        ([[some (.str ("y").toList), none]]
          ++ ([some (.str ("x").toList)] ++ some (.str ("p").toList) :: []) :: [[none, none]]) 2).2
      = some (unsupportedMsg (normalizeType (("GEOMETRY").toList))) := by
  refine ⟨by decide, ?_⟩
  exact (c5_unsupported_type_aborts (("t").toList) [("a").toList, ("g").toList]
    [some (.str ("x").toList)] [("VARCHAR").toList] (.str ("p").toList)
    (("GEOMETRY").toList) [] [] [[some (.str ("y").toList), none]]
    [[none, none]] [] 2
    (.cons ⟨_, rfl⟩ .nil) (by decide) (by intro r hr; simp at hr; subst hr; decide)).2.2

/-- C6: in one session the trigger cache issues exactly one `SHOW TRIGGERS`
query no matter how many tables request triggers and in what order: the
first call populates the table-to-trigger mapping and every later call (for
any table) only reads from it. -/
theorem c6_trigger_cache_single_query (queryRows : List TrigRec)
    (tables : List Chars) (h : tables ≠ []) :
    (runTriggerCalls queryRows tables none).1 = 1 ∧
    (runTriggerCalls queryRows tables none).2 = some (buildTrigMap queryRows) ∧
    ∀ (t : Chars) (m : TrigMap),
      getTriggerGo queryRows t (some m) = (tmGet m t, some m, 0) := by
  cases tables with
  | nil => exact absurd rfl h
  | cons t ts =>
    refine ⟨?_, ?_, fun t m => rfl⟩ <;>
      simp [runTriggerCalls, getTriggerGo, runTriggerCalls_cached]

/-- Witness for C6 at a concrete input: two tables, one fetch. -/
theorem c6_trigger_cache_single_query_witness :
    ([("t1").toList, ("t2").toList] : List Chars) ≠ [] ∧
    (runTriggerCalls
      [⟨("trg1").toList, ("INSERT").toList, ("t1").toList,
        ("SET @a=1").toList, ("BEFORE").toList⟩]
      [("t1").toList, ("t2").toList] none).1 = 1 := by
  refine ⟨by decide, ?_⟩
  exact (c6_trigger_cache_single_query
    [⟨("trg1").toList, ("INSERT").toList, ("t1").toList,
      ("SET @a=1").toList, ("BEFORE").toList⟩]
    [("t1").toList, ("t2").toList] (by decide)).1

theorem formatCell_on_DATE (v : GoVal) {tn : Chars}
    (hT : normalizeType tn = ("DATE").toList) :
    formatCell tn v =
      match v with
      | .time t => .text (sqlQuote (fmtDate t))
      | _ => .halt none := by
  simp only [formatCell, hT]
  rw [if_neg (by decide), if_neg (by decide), if_neg (by decide), if_pos trivial]

theorem formatCell_on_dt (v : GoVal) {tn : Chars}
    (hT : normalizeType tn ∈ dtTys) :
    formatCell tn v =
      match v with
      | .time t => .text (sqlQuote (fmtDateTime t))
      | _ => .halt none := by
  simp only [dtTys, List.mem_cons, List.not_mem_nil, or_false] at hT
  rcases hT with hT | hT <;>
  · simp only [formatCell, hT]
    rw [if_neg (by decide), if_neg (by decide), if_neg (by decide),
      if_neg (by decide), if_pos (by decide)]

theorem formatCell_on_TIME (v : GoVal) {tn : Chars}
    (hT : normalizeType tn = ("TIME").toList) :
    formatCell tn v =
      match v with
      | .bytes b => .text (sqlQuote b)
      | _ => .halt none := by
  simp only [formatCell, hT]
  rw [if_neg (by decide), if_neg (by decide), if_neg (by decide),
    if_neg (by decide), if_neg (by decide), if_pos trivial]

theorem formatCell_on_YEAR (v : GoVal) {tn : Chars}
    (hT : normalizeType tn = ("YEAR").toList) :
    formatCell tn v =
      match v with
      | .bytes b => .text b
      | _ => .halt none := by
  simp only [formatCell, hT]
  rw [if_neg (by decide), if_neg (by decide), if_neg (by decide),
    if_neg (by decide), if_neg (by decide), if_neg (by decide), if_pos trivial]

/-- A `DATE`, `DATETIME` or `TIMESTAMP` column whose driver value is not a
`time.Time` makes the formatter return `("", nil)` — the named error is
still `nil` at that point. -/
theorem formatCell_time_mismatch {tn : Chars} {v : GoVal}
    (hT : normalizeType tn = ("DATE").toList ∨ normalizeType tn ∈ dtTys)
    (hv : ∀ t, v ≠ .time t) :
    formatCell tn v = .halt none := by
  rcases hT with hT | hT
  · rw [formatCell_on_DATE v hT]
    cases v with
    | time t => exact absurd rfl (hv t)
    | bytes b => rfl
    | int n => rfl
    | flt b => rfl
    | str s => rfl
    | bool b => rfl
  · rw [formatCell_on_dt v hT]
    cases v with
    | time t => exact absurd rfl (hv t)
    | bytes b => rfl
    | int n => rfl
    | flt b => rfl
    | str s => rfl
    | bool b => rfl

/-- A `TIME` or `YEAR` column whose driver value is not a byte slice makes
the formatter return `("", nil)` likewise. -/
theorem formatCell_bytes_mismatch {tn : Chars} {v : GoVal}
    (hT : normalizeType tn = ("TIME").toList ∨ normalizeType tn = ("YEAR").toList)
    (hv : ∀ b, v ≠ .bytes b) :
    formatCell tn v = .halt none := by
  rcases hT with hT | hT
  · rw [formatCell_on_TIME v hT]
    cases v with
    | bytes b => exact absurd rfl (hv b)
    | time t => rfl
    | int n => rfl
    | flt b => rfl
    | str s => rfl
    | bool b => rfl
  · rw [formatCell_on_YEAR v hT]
    cases v with
    | bytes b => exact absurd rfl (hv b)
    | time t => rfl
    | int n => rfl
    | flt b => rfl
    | str s => rfl
    | bool b => rfl

/-- C8: a row with a non-NULL `DATE`/`DATETIME`/`TIMESTAMP`/`TIME`/`YEAR`
column whose driver value has the wrong dynamic type makes `buildRowData`
return the empty string with a `nil` error, so `writeTableData` reports no
failure and emits the truncated tuple `()` for that row. -/
theorem c8_time_mismatch_silent
    (table : Chars) (columns : List Chars)
    (pre : Row) (tpre : List Chars) (v : GoVal) (tn : Chars)
    (post : Row) (tpost : List Chars) (per : Int)
    (hpre : List.Forall₂ (fun c t => ∃ s, cellOf c t = .text s) pre tpre)
    (hmis : ((normalizeType tn = ("DATE").toList ∨ normalizeType tn ∈ dtTys)
              ∧ ∀ t, v ≠ .time t)
          ∨ ((normalizeType tn = ("TIME").toList ∨ normalizeType tn = ("YEAR").toList)
              ∧ ∀ b, v ≠ .bytes b)) :
    buildRowDataGo (pre ++ some v :: post) (tpre ++ tn :: tpost) = ([], none) ∧
    writeTableDataGo table columns (tpre ++ tn :: tpost)
        [pre ++ some v :: post] per
      = (framePre table ++ insertPre table columns ++ ("()").toList
          ++ (";\n").toList ++ frameEnd table, none) := by
  have hcell : cellOf (some v) tn = .halt none := by
    rcases hmis with ⟨hT, hv⟩ | ⟨hT, hv⟩
    · simpa [cellOf] using formatCell_time_mismatch hT hv
    · simpa [cellOf] using formatCell_bytes_mismatch hT hv
  have hrow : buildRowDataGo (pre ++ some v :: post) (tpre ++ tn :: tpost)
      = ([], none) := by
    simp [buildRowDataGo, buildRowAux_halt hpre hcell]
  refine ⟨hrow, ?_⟩
  simp [writeTableDataGo, wtdLoop, hrow]

/-- Witness for C8 at a concrete input: a string value in a `DATE` column is
silently truncated to `()` with no error. -/
theorem c8_time_mismatch_silent_witness :
    buildRowDataGo ([some (.str ("a").toList)] ++ some (.str ("bad").toList) :: [])
        ([("VARCHAR").toList] ++ ("DATE").toList :: []) = ([], none) ∧
    (writeTableDataGo (("t").toList) [("a").toList, ("d").toList]
        ([("VARCHAR").toList] ++ ("DATE").toList :: [])
        [[some (.str ("a").toList)] ++ some (.str ("bad").toList) :: []] 1).2 = none := by
  have h := c8_time_mismatch_silent (("t").toList) [("a").toList, ("d").toList]
    [some (.str ("a").toList)] [("VARCHAR").toList] (.str ("bad").toList)
    (("DATE").toList) [] [] 1
    (.cons ⟨_, rfl⟩ .nil)
    (Or.inl ⟨Or.inl (by decide), fun t => by simp⟩)
  exact ⟨h.1, by rw [h.2]⟩

set_option maxRecDepth 4000 in
/-- C10: a table with zero rows still emits the full data-section framing —
comment header, `LOCK TABLES ... WRITE`, `DISABLE KEYS`, then the stray lone
`;` line, `ENABLE KEYS` and `UNLOCK TABLES` — with no `INSERT` statement
between the lock brackets, and no error. -/
theorem c10_empty_table_framing :
    (∀ (table : Chars) (columns types : List Chars) (per : Int),
      writeTableDataGo table columns types [] per =
        (framePre table ++ (";\n").toList ++ frameEnd table, none) ∧
      wtdLoop (insertPre table columns) types per [] 0 = ([], none)) ∧
    goContains (("INSERT").toList)
      (writeTableDataGo (("users").toList) [("id").toList] [("INT").toList] [] 7).1
      = false := by
  refine ⟨fun table columns types per => ⟨?_, rfl⟩, by decide⟩
  simp [writeTableDataGo, wtdLoop]

theorem semiEnded_no_semi {w : Chars} (hw : SemiEnded w) (h : ';' ∉ w) : w = [] := by
  rcases hw with hw | hw
  · exact hw
  · exfalso
    obtain ⟨hne, heq⟩ :=
      List.mem_getLast?_eq_getLast (Option.mem_def.mpr hw)
    exact h (heq ▸ List.getLast_mem hne)

theorem semiEnded_readString {w l r : Chars} (hw : SemiEnded w)
    (h : readStringSemi w = some (l, r)) : SemiEnded r := by
  by_cases hr : r = []
  · exact Or.inl hr
  · right
    have hs := readStringSemi_some_shape h
    rcases hw with hw | hw
    · subst hw; simp [readStringSemi] at h
    · rw [hs, List.getLast?_append_of_ne_nil l hr] at hw
      exact hw

theorem accumulate_app (t : Chars) (ht : ';' ∉ t) :
    ∀ (k : Nat) (r : Chars) (acc : List Chars), SemiEnded r →
      accumulate k (r ++ t) acc
        = ((accumulate k r acc).1, (accumulate k r acc).2 ++ t)
      ∧ SemiEnded (accumulate k r acc).2 := by
  intro k
  induction k with
  | zero => intro r acc hr; exact ⟨rfl, hr⟩
  | succ k ih =>
    intro r acc hr
    cases hrs : readStringSemi r with
    | none =>
      have hnr : ';' ∉ r := readStringSemi_none_not_mem hrs
      have hre : r = [] := semiEnded_no_semi hr hnr
      subst hre
      have hnt := readStringSemi_of_not_mem ht
      refine ⟨?_, ?_⟩
      · simp [accumulate, hnt, hrs]
      · simp [accumulate, hrs]
        exact hr
    | some p =>
      obtain ⟨line, r'⟩ := p
      have happ := readStringSemi_app t hrs
      have hr' : SemiEnded r' := semiEnded_readString hr hrs
      by_cases hins : goStarts insertIntoPat (trimGo line) = true
      · have hstep1 : accumulate (k + 1) (r ++ t) acc
            = accumulate k (r' ++ t) (acc ++ [trimGo line]) := by
          simp [accumulate, happ, hins]
        have hstep2 : accumulate (k + 1) r acc
            = accumulate k r' (acc ++ [trimGo line]) := by
          simp [accumulate, hrs, hins]
        rw [hstep1, hstep2]
        exact ih r' (acc ++ [trimGo line]) hr'
      · have hstep1 : accumulate (k + 1) (r ++ t) acc = (acc, r' ++ t) := by
          simp [accumulate, happ, hins]
        have hstep2 : accumulate (k + 1) r acc = (acc, r') := by
          simp [accumulate, hrs, hins]
        rw [hstep1, hstep2]
        exact ⟨rfl, hr'⟩

theorem sourceLoop_nil (m : Int) : sourceLoop m [] = ([], none) := by
  rw [sourceLoop_eq]
  rfl

theorem sourceLoop_app (m : Int) (t : Chars) (ht : ';' ∉ t) :
    ∀ (w : Chars), SemiEnded w → sourceLoop m (w ++ t) = sourceLoop m w := by
  have main : ∀ (n : Nat) (w : Chars), w.length ≤ n → SemiEnded w →
      sourceLoop m (w ++ t) = sourceLoop m w := by
    intro n
    induction n with
    | zero =>
      intro w hw hse
      have : w = [] := List.length_eq_zero.mp (Nat.le_zero.mp hw)
      subst this
      rw [List.nil_append, sourceLoop_eq, sourceLoop_eq,
        readStringSemi_of_not_mem ht]
      rfl
    | succ n ihn =>
      intro w hw hse
      rw [sourceLoop_eq, sourceLoop_eq]
      cases hrs : readStringSemi w with
      | none =>
        have hnw : ';' ∉ w := readStringSemi_none_not_mem hrs
        have hwe : w = [] := semiEnded_no_semi hse hnw
        subst hwe
        simp [readStringSemi_of_not_mem ht, hrs]
      | some p =>
        obtain ⟨line, r⟩ := p
        have happ := readStringSemi_app t hrs
        have hser : SemiEnded r := semiEnded_readString hse hrs
        have hrl : r.length < w.length := readStringSemi_length_lt hrs
        simp only [happ, hrs]
        by_cases hc : 1 < m ∧ goStarts insertIntoPat (trimGo line) = true
        · simp only [if_pos hc]
          have hacc := accumulate_app t ht (m - 1).toNat r [trimGo line] hser
          rw [hacc.1]
          have hal := accumulate_length_le (m - 1).toNat r [trimGo line]
          have hrec := ihn (accumulate (m - 1).toNat r [trimGo line]).2
            (by omega) hacc.2
          cases hm : mergeInsertGo (accumulate (m - 1).toNat r [trimGo line]).1 with
          | mk merged e =>
            cases e with
            | none => simp only [hrec]
            | some err => rfl
        · simp only [if_neg hc]
          have hrec := ihn r (by omega) hser
          rw [hrec]
  exact fun w hse => main w.length w le_rfl hse

/-- C7 counterexample: on the concrete stream `SELECT 'a;b';` the reader
stops at the `;` inside the quoted literal, whereas a reader honouring the
claim (modelled by `specReadStmt`) would return the whole statement. -/
theorem c7_semicolon_in_quotes_counterexample :
    readStringSemi c7Input ≠ specReadStmt c7Input ∧
    readStringSemi c7Input
      = some (("SELECT ").toList ++ [sq] ++ ("a;").toList,
              ("b").toList ++ [sq] ++ [';']) ∧
    specReadStmt c7Input = some (c7Input, []) :=
  ⟨by decide, by decide, by decide⟩

/-- C7 (amended): the reader's `ReadStatement` step reads the bytes up to
and including the *first* `;` of the stream — whether or not that `;` is
escaped or inside a quoted literal — and the dispatched statement is that
text with leading newlines and surrounding whitespace trimmed. -/
theorem c7_read_statement_amended (a b : Chars) (h : ';' ∉ a) :
    readStringSemi (a ++ ';' :: b) = some (a ++ [';'], b) ∧
    ∀ m : Int, ¬ 1 < m →
      sourceLoop m (a ++ ';' :: b)
        = (trimGo (a ++ [';']) :: (sourceLoop m b).1, (sourceLoop m b).2) := by
  refine ⟨readStringSemi_split b h, ?_⟩
  intro m hm
  rw [sourceLoop_eq, readStringSemi_split b h]
  simp only
  rw [if_neg (by rintro ⟨h1, _⟩; exact hm h1)]

/-- Witness for the amended C7 at a concrete input. -/
theorem c7_read_statement_amended_witness :
    (';' ∉ (("SELECT 1").toList)) ∧
    readStringSemi ((("SELECT 1").toList) ++ ';' :: (("X").toList))
      = some ((("SELECT 1").toList) ++ [';'], ("X").toList) :=
  ⟨by decide,
   (c7_read_statement_amended (("SELECT 1").toList) (("X").toList) (by decide)).1⟩

/-- C9: trailing bytes after the last `;` of the restore stream that contain
no terminator are silently discarded — the dispatched statements are exactly
those of the stream without the trailing bytes — after which `COMMIT;` and
`SET autocommit=1;` are executed and `Source` returns success. -/
theorem c9_trailing_bytes_discarded (m : Int) (w t : Chars)
    (hse : SemiEnded w) (ht : ';' ∉ t) (_htne : t ≠ []) :
    sourceLoop m (w ++ t) = sourceLoop m w ∧
    sourceRun m (w ++ t) = sourceRun m w ∧
    ∀ l, sourceLoop m w = (l, none) →
      sourceRun m (w ++ t)
        = (l ++ [("COMMIT;").toList, ("SET autocommit=1;").toList], none) := by
  have h := sourceLoop_app m t ht w hse
  refine ⟨h, ?_, ?_⟩
  · simp only [sourceRun, h]
  · intro l hl
    simp only [sourceRun, h, hl]

/-- Witness for C9 at a concrete input: the unterminated trailing
`INSERT INTO ...` fragment is dropped and the restore commits. -/
theorem c9_trailing_bytes_discarded_witness :
    SemiEnded (("DROP TABLE `t`;").toList) ∧
    (';' ∉ (("INSERT INTO `t` VAL").toList)) ∧
    (("INSERT INTO `t` VAL").toList ≠ ([] : Chars)) ∧
    sourceRun 1 ((("DROP TABLE `t`;").toList) ++ (("INSERT INTO `t` VAL").toList))
      = ([("DROP TABLE `t`;").toList,
          ("COMMIT;").toList, ("SET autocommit=1;").toList], none) := by
  refine ⟨Or.inr (by decide), by decide, by decide, ?_⟩
  have h := c9_trailing_bytes_discarded 1 (("DROP TABLE `t`;").toList)
    (("INSERT INTO `t` VAL").toList) (Or.inr (by decide)) (by decide) (by decide)
  rw [h.2.2 [("DROP TABLE `t`;").toList] (by decide)]
  decide

theorem trimSuffixSemiApp (x : Chars) : goTrimSuffixL [';'] (x ++ [';']) = x := by
  have hends : goEnds [';'] (x ++ [';']) = true := by
    unfold goEnds
    rw [List.reverse_append]
    simp [goStarts]
  unfold goTrimSuffixL
  rw [if_pos hends]
  simp only [List.length_append, List.length_cons, List.length_nil,
    Nat.zero_add, Nat.add_sub_cancel]
  exact takeLenApp x [';']

theorem goStarts_cPre (y : Chars) : goStarts insertIntoPat (cPre ++ y) = true :=
  goStarts_app y (by decide)

theorem trim_cStmt (z : Chars) : trimGo ((cPre ++ z) ++ [';']) = (cPre ++ z) ++ [';'] := by
  have h := trimGo_noop 'I' ';' (("NSERT INTO `t` VALUES ").toList ++ z)
    (by decide) (by decide)
  have hsh : (cPre ++ z) ++ [';']
      = 'I' :: ((("NSERT INTO `t` VALUES ").toList ++ z) ++ [';']) := by
    have : cPre = 'I' :: ("NSERT INTO `t` VALUES ").toList := by decide
    simp [this]
  rw [hsh]
  simpa using h

theorem mergeRest_splice (t2 : Chars) (total i : Nat) (hlt : i < total - 1) :
    mergeRest total i [(cPre ++ t2) ++ [';']] = some ([','] ++ (' ' :: t2)) := by
  have hsh : (cPre ++ t2) ++ [';'] = cPre ++ (t2 ++ [';']) := by
    simp [List.append_assoc]
  have hidx : goIdx (("VALUES").toList) (cPre ++ (t2 ++ [';'])) = some 16 :=
    goIdx_app (t2 ++ [';']) (by decide) (by decide)
  have hdrop : (cPre ++ (t2 ++ [';'])).drop 16 = ("VALUES ").toList ++ (t2 ++ [';']) := by
    rw [dropApp 16 cPre (t2 ++ [';']) (by decide)]
    congr 1
  have hpref : goTrimPrefL (("VALUES").toList) (("VALUES ").toList ++ (t2 ++ [';']))
      = (' ' :: t2) ++ [';'] := by
    unfold goTrimPrefL
    rw [if_pos (goStarts_app _ (by decide))]
    rw [dropApp (("VALUES").toList.length) (("VALUES ").toList) (t2 ++ [';']) (by decide)]
    rfl
  simp only [mergeRest, hsh, hidx, hdrop, hpref]
  rw [trimSuffixSemiApp (' ' :: t2)]
  simp [mergeRest, if_pos hlt]

theorem mergeTwo (t1 t2 : Chars) :
    mergeInsertGo [(cPre ++ t1) ++ [';'], (cPre ++ t2) ++ [';']]
      = ((cPre ++ t1) ++ ([','] ++ (' ' :: t2)) ++ [';'], none) := by
  simp only [mergeInsertGo, List.length_cons, List.length_nil]
  rw [mergeRest_splice t2 2 0 (by norm_num)]
  rw [trimSuffixSemiApp (cPre ++ t1)]

theorem mergeOne (t : Chars) :
    mergeInsertGo [(cPre ++ t) ++ [';']] = ((cPre ++ t) ++ [';'], none) := by
  simp only [mergeInsertGo, mergeRest, List.length_nil]
  rw [trimSuffixSemiApp (cPre ++ t)]
  simp

/-- One merge round of the C3 stream: two consecutive single-row `INSERT`
statements are spliced into one two-tuple statement and the loop continues
on the remaining stream. -/
theorem c3_step (ta tb : Chars) (rest : Chars) (ha : ';' ∉ ta) (hb : ';' ∉ tb) :
    sourceLoop 2 (cStmt ta ++ (cStmt tb ++ rest)) =
      (((cPre ++ ta) ++ ([','] ++ (' ' :: tb)) ++ [';']) :: (sourceLoop 2 rest).1,
       (sourceLoop 2 rest).2) := by
  have hsh : cStmt ta ++ (cStmt tb ++ rest) = (cPre ++ ta) ++ ';' :: (cStmt tb ++ rest) := by
    simp [cStmt, List.append_assoc]
  have hmema : ';' ∉ cPre ++ ta := by
    simp only [List.mem_append, not_or]
    exact ⟨by decide, ha⟩
  have hmemb : ';' ∉ cPre ++ tb := by
    simp only [List.mem_append, not_or]
    exact ⟨by decide, hb⟩
  rw [hsh, sourceLoop_eq, readStringSemi_split _ hmema]
  simp only
  rw [trim_cStmt ta]
  rw [if_pos ⟨by norm_num, by rw [List.append_assoc]; exact goStarts_cPre _⟩]
  have hsh2 : cStmt tb ++ rest = (cPre ++ tb) ++ ';' :: rest := by
    simp [cStmt, List.append_assoc]
  have hacc : accumulate ((2 : Int) - 1).toNat (cStmt tb ++ rest) [(cPre ++ ta) ++ [';']]
      = ([(cPre ++ ta) ++ [';'], (cPre ++ tb) ++ [';']], rest) := by
    show accumulate 1 _ _ = _
    rw [hsh2]
    simp only [accumulate, readStringSemi_split _ hmemb]
    rw [trim_cStmt tb]
    rw [if_pos (by rw [List.append_assoc]; exact goStarts_cPre _)]
    rfl
  rw [hacc]
  simp only [mergeTwo]

/-- The tail of the C3 stream: a single trailing `INSERT` statement is
"merged" alone and dispatched unchanged. -/
theorem c3_last (t : Chars) (h : ';' ∉ t) :
    sourceLoop 2 (cStmt t) = ([(cPre ++ t) ++ [';']], none) := by
  have hmem : ';' ∉ cPre ++ t := by
    simp only [List.mem_append, not_or]
    exact ⟨by decide, h⟩
  have hsh : cStmt t = (cPre ++ t) ++ ';' :: [] := by
    simp [cStmt]
  rw [hsh, sourceLoop_eq, readStringSemi_split _ hmem]
  simp only
  rw [trim_cStmt t]
  rw [if_pos ⟨by norm_num, by rw [List.append_assoc]; exact goStarts_cPre _⟩]
  have hacc : accumulate ((2 : Int) - 1).toNat [] [(cPre ++ t) ++ [';']]
      = ([(cPre ++ t) ++ [';']], []) := by
    show accumulate 1 _ _ = _
    simp [accumulate, readStringSemi]
  rw [hacc]
  simp only [mergeOne, sourceLoop_nil]

/-- C3: a stream of exactly five single-row `INSERT` statements restored
with merge size 2 dispatches exactly three statements — two merged two-tuple
statements and one unmerged single-tuple statement — with the value tuples
in original stream order. -/
theorem c3_five_inserts_merge_two (t1 t2 t3 t4 t5 : Chars)
    (h1 : ';' ∉ t1) (h2 : ';' ∉ t2) (h3 : ';' ∉ t3) (h4 : ';' ∉ t4)
    (h5 : ';' ∉ t5) :
    sourceLoop 2 (cStmt t1 ++ cStmt t2 ++ cStmt t3 ++ cStmt t4 ++ cStmt t5) =
      ([(cPre ++ t1) ++ ([','] ++ (' ' :: t2)) ++ [';'],
        (cPre ++ t3) ++ ([','] ++ (' ' :: t4)) ++ [';'],
        (cPre ++ t5) ++ [';']], none) := by
  have hsh : cStmt t1 ++ cStmt t2 ++ cStmt t3 ++ cStmt t4 ++ cStmt t5
      = cStmt t1 ++ (cStmt t2 ++ (cStmt t3 ++ (cStmt t4 ++ cStmt t5))) := by
    simp [List.append_assoc]
  rw [hsh, c3_step t1 t2 _ h1 h2, c3_step t3 t4 _ h3 h4, c3_last t5 h5]

theorem goJoin_cons (sep x : Chars) (xs : List Chars) :
    goJoin sep (x :: xs) = x ++ (if xs = [] then [] else sep ++ goJoin sep xs) := by
  cases xs <;> simp [goJoin]

theorem chunksOf_eq_nil (n : Nat) (l : List Chars) :
    chunksOf n l = [] ↔ l = [] := by
  cases l <;> simp [chunksOf]

theorem chunksOf_cons (n : Nat) (v : Chars) (rest : List Chars) :
    chunksOf n (v :: rest) = (v :: rest.take (n - 1)) :: chunksOf n (rest.drop (n - 1)) := by
  rw [chunksOf]

theorem goJoin_tuples (v : Chars) (xs : List Chars) :
    goJoin ((",\n").toList) ((v :: xs).map tupleOf) = tupleOf v ++ commaTuples xs := by
  induction xs generalizing v with
  | nil => simp [goJoin, commaTuples]
  | cons w ws ih =>
    rw [List.map_cons, goJoin_cons]
    rw [if_neg (by simp)]
    rw [ih w]
    simp [commaTuples, List.append_assoc]

/-- The `writeTableData` row loop emits exactly the text of `expBody` when
every row formats without error. -/
theorem wtdLoop_expBody {types : List Chars} {rows : List Row} {vs : List Chars}
    (h : List.Forall₂ (fun r v => buildRowDataGo r types = (v, none)) rows vs)
    (P : Chars) (per : Int) :
    ∀ rowId : Int, wtdLoop P types per rows rowId = (expBody P per vs rowId, none) := by
  induction h with
  | nil => intro rowId; rfl
  | cons hh htl ih =>
    intro rowId
    simp only [wtdLoop, hh, expBody, ih]
    by_cases hb : rowId = 0 ∨ per < 2 ∨ rowId % per = 0
    · rw [if_pos hb, if_pos hb, if_pos hb]
      simp [List.append_assoc]
    · rw [if_neg hb, if_neg hb, if_neg hb]
      simp [List.append_assoc]

/-- The key batching computation: from a batch boundary the loop text equals
the chunked multi-row `INSERT` statements; in mid-batch position with `j`
row slots left, it is the comma-continuation of the current batch followed
by the chunked statements of the remaining rows. -/
theorem expBody_spec (P : Chars) (per : Int) (hper : 2 ≤ per) :
    ∀ (n : Nat) (vs : List Chars), vs.length ≤ n →
      ((∀ c : Int, 0 ≤ c → c % per = 0 →
        expBody P per vs c
          = (if vs = [] then []
             else (if 0 < c then (";\n").toList else []) ++ bodyExpected P per vs))
      ∧
      (∀ (j : Nat) (c : Int), 1 ≤ j → (j : Int) < per → 0 < c →
          c % per = per - (j : Int) →
        expBody P per vs c
          = commaTuples (vs.take j)
            ++ (if vs.drop j = [] then []
                else (";\n").toList ++ bodyExpected P per (vs.drop j)))) := by
  have e2 : (1 : Int) % per = 1 := Int.emod_eq_of_lt (by omega) (by omega)
  intro n
  induction n with
  | zero =>
    intro vs hlen
    have hvs : vs = [] := List.length_eq_zero.mp (Nat.le_zero.mp hlen)
    subst hvs
    constructor
    · intro c _ _; simp [expBody]
    · intro j c _ _ _ _; simp [expBody, commaTuples]
  | succ n ihn =>
    intro vs hlen
    cases vs with
    | nil =>
      constructor
      · intro c _ _; simp [expBody]
      · intro j c _ _ _ _; simp [expBody, commaTuples]
    | cons v rest =>
      have hrl : rest.length ≤ n := by
        simp only [List.length_cons] at hlen; omega
      have ihr := ihn rest hrl
      constructor
      · -- boundary position
        intro c hc0 hcm
        have hcond : c = 0 ∨ per < 2 ∨ c % per = 0 := Or.inr (Or.inr hcm)
        rw [expBody, if_pos hcond]
        have hj0 : (((per - 1).toNat : Int)) = per - 1 := Int.toNat_of_nonneg (by omega)
        have hnext : (c + 1) % per = per - (((per - 1).toNat : Int)) := by
          rw [hj0, Int.add_emod, hcm, e2]
          rw [show (0 + 1 : Int) = 1 from by ring, e2]
          omega
        have hmid := ihr.2 (per - 1).toNat (c + 1) (by omega) (by omega)
          (by omega) hnext
        rw [hmid]
        have hjn : per.toNat - 1 = (per - 1).toNat := by omega
        have hiff : ((chunksOf per.toNat (rest.drop (per - 1).toNat)).map
            (fun ch => P ++ goJoin ((",\n").toList) (ch.map tupleOf)) = [])
            ↔ rest.drop (per - 1).toNat = [] := by
          rw [List.map_eq_nil_iff, chunksOf_eq_nil]
        have hbody : bodyExpected P per (v :: rest)
            = P ++ (tupleOf v ++ commaTuples (rest.take (per - 1).toNat))
              ++ (if rest.drop (per - 1).toNat = [] then []
                  else (";\n").toList ++ bodyExpected P per (rest.drop (per - 1).toNat)) := by
          conv_lhs => rw [bodyExpected, chunksOf_cons, hjn]
          rw [List.map_cons, goJoin_cons, goJoin_tuples]
          by_cases hdr : rest.drop (per - 1).toNat = []
          · rw [if_pos (hiff.mpr hdr), if_pos hdr]
          · rw [if_neg (fun h => hdr (hiff.mp h)), if_neg hdr]
            rfl
        rw [if_neg (by simp : ¬(v :: rest) = []), hbody]
        simp [tupleOf, List.append_assoc]
      · -- mid-batch position with j slots left
        intro j c hj1 hjp hc0 hcm
        have hpj1 : (1 : Int) ≤ per - (j : Int) := by omega
        have hcond : ¬(c = 0 ∨ per < 2 ∨ c % per = 0) := by
          rintro (h | h | h) <;> omega
        rw [expBody, if_neg hcond]
        obtain ⟨j', rfl⟩ : ∃ j', j = j' + 1 := ⟨j - 1, by omega⟩
        cases Nat.eq_zero_or_pos j' with
        | inl hz =>
          subst hz
          have hnext : (c + 1) % per = 0 := by
            rw [Int.add_emod, hcm, e2]
            rw [show (per - (((0 : Nat) + 1 : Nat) : Int) + 1 : Int) = per from by
              push_cast; ring]
            exact Int.emod_self
          have hb := ihr.1 (c + 1) (by omega) hnext
          rw [hb]
          simp only [List.take_succ_cons, List.take_zero, List.drop_succ_cons,
            List.drop_zero]
          by_cases hr : rest = []
          · rw [if_pos hr, if_pos hr]
            simp [commaTuples, tupleOf, List.append_assoc]
          · rw [if_neg hr, if_neg hr, if_pos (by omega : (0 : Int) < c + 1)]
            simp [commaTuples, tupleOf, List.append_assoc]
        | inr hpos =>
          have hnext : (c + 1) % per = per - ((j' : Nat) : Int) := by
            rw [Int.add_emod, hcm, e2]
            have hlt : per - (((j' + 1 : Nat) : Int)) + 1 = per - (j' : Int) := by
              push_cast; ring
            rw [hlt]
            exact Int.emod_eq_of_lt (by omega) (by omega)
          have hmid := ihr.2 j' (c + 1) (by omega) (by push_cast at hjp ⊢; omega)
            (by omega) hnext
          rw [hmid]
          simp only [List.take_succ_cons, List.drop_succ_cons]
          simp [commaTuples, tupleOf, List.append_assoc]

/-- C4: with row batch size N ≥ 2 the emitter writes the rows of a table as
consecutive `INSERT` statements of at most N value tuples each — each batch
opened with the `INSERT INTO <table> (<columns>) VALUES` prefix, tuples
separated by `,`, each statement terminated by `;`, the final partial batch
included — inside the unconditional lock/key framing. -/
theorem c4_row_batch_emitter_batches
    (table : Chars) (columns : List Chars) (types : List Chars)
    (rows : List Row) (vs : List Chars) (per : Int)
    (hper : 2 ≤ per)
    (hrows : List.Forall₂ (fun r v => buildRowDataGo r types = (v, none)) rows vs) :
    writeTableDataGo table columns types rows per
      = (framePre table ++ bodyExpected (insertPre table columns) per vs
          ++ (";\n").toList ++ frameEnd table, none) := by
  have h1 := wtdLoop_expBody hrows (insertPre table columns) per 0
  have h2 := (expBody_spec (insertPre table columns) per hper vs.length vs
    le_rfl).1 0 le_rfl (Int.zero_emod per)
  have h3 : expBody (insertPre table columns) per vs 0
      = bodyExpected (insertPre table columns) per vs := by
    rw [h2]
    by_cases h : vs = []
    · subst h; simp [bodyExpected, chunksOf, goJoin]
    · simp [h]
  rw [writeTableDataGo]
  simp only [h1, h3]

/-- Witness for C4 at a concrete input: three rows with batch size 2 give
one two-tuple `INSERT` and one single-tuple `INSERT`. -/
theorem c4_row_batch_emitter_batches_witness :
    ((2 : Int) ≤ 2) ∧
    writeTableDataGo (("t1").toList) [("v").toList] [("VARCHAR").toList]
        [[some (.str (("a").toList))], [some (.str (("b").toList))],
         [some (.str (("c").toList))]] 2
      = (framePre (("t1").toList)
          ++ bodyExpected (insertPre (("t1").toList) [("v").toList]) 2
              [[sq, 'a', sq], [sq, 'b', sq], [sq, 'c', sq]]
          ++ (";\n").toList ++ frameEnd (("t1").toList), none) :=
  ⟨by norm_num,
   c4_row_batch_emitter_batches (("t1").toList) [("v").toList]
     [("VARCHAR").toList]
     [[some (.str (("a").toList))], [some (.str (("b").toList))],
      [some (.str (("c").toList))]]
     [[sq, 'a', sq], [sq, 'b', sq], [sq, 'c', sq]] 2 (by norm_num)
     (.cons (by decide) (.cons (by decide) (.cons (by decide) .nil)))⟩

/-- Witness for C3 at a concrete input stream. -/
theorem c3_five_inserts_merge_two_witness :
    (';' ∉ (("(1)").toList)) ∧
    sourceLoop 2 (cStmt (("(1)").toList) ++ cStmt (("(2)").toList)
        ++ cStmt (("(3)").toList) ++ cStmt (("(4)").toList)
        ++ cStmt (("(5)").toList)) =
      ([(cPre ++ ("(1)").toList) ++ ([','] ++ (' ' :: ("(2)").toList)) ++ [';'],
        (cPre ++ ("(3)").toList) ++ ([','] ++ (' ' :: ("(4)").toList)) ++ [';'],
        (cPre ++ ("(5)").toList) ++ [';']], none) :=
  ⟨by decide,
   c3_five_inserts_merge_two (("(1)").toList) (("(2)").toList) (("(3)").toList)
     (("(4)").toList) (("(5)").toList)
     (by decide) (by decide) (by decide) (by decide) (by decide)⟩

end Mysqldump
